import Mathlib

/-!
# WPlace tile stitcher — verification of the core

Shallow embedding of `src/wplace_capture.py`:

* `latlon_to_tile`  — slippy-tile Mercator projection (lines 59–87),
  modelled over the reals; Python `int()` truncation toward zero is
  `truncToZero`, Python `%` on ints is `Int.emod` (both give results in
  `[0, n)` for positive `n`).
* `wrap_clamp_tile` — horizontal wrap / vertical clamp (lines 91–94).
* `buildGrid`       — the grid-building loop in `main` (lines 230–244).
* `download_tile`   — retry loop with zero-length marker (lines 117–134),
  with the network and the file writes driven by explicit oracles; the
  `Except` result records whether an exception escapes the function.
* `safe_open_png` / `stitch_from_folder` — stitcher (lines 139–188), with
  the tile store as a map from coordinates to optional byte strings and
  PNG decoding as an oracle; canvases are functions from pixel
  coordinates to RGBA values and `paste` overwrites a rectangle.
* `should_download` / `process_tile` — the per-tile branch of the
  download loop in `main` (lines 263–269).
* `trigger` / `progressEvents` — the progress-milestone printing of the
  download loop in `main` (lines 258–280).
-/

/-- Python `int()` on a float: truncation toward zero. -/
noncomputable def truncToZero (r : ℝ) : ℤ :=
  if 0 ≤ r then ⌊r⌋ else ⌈r⌉

/-- Latitude clamp on line 67: `max(min(lat, 85.05112878), -85.05112878)`. -/
noncomputable def clampLat (lat : ℝ) : ℝ :=
  max (min lat 85.05112878) (-85.05112878)

/-- Function `latlon_to_tile` (lines 59–87): clamp latitude, project, truncate;
`x = int(x_float) % n`, `y = max(0, min(n - 1, int(y_float)))`. -/
noncomputable def latlon_to_tile (lat lon : ℝ) (z : ℕ) : ℤ × ℤ :=
  let lat2 : ℝ := clampLat lat
  let n : ℤ := 2 ^ z
  let x_float : ℝ := (lon + 180.0) / 360.0 * (n : ℝ)
  let lat_rad : ℝ := lat2 * Real.pi / 180
  let y_float : ℝ :=
    (1.0 - Real.log (Real.tan lat_rad + 1.0 / Real.cos lat_rad) / Real.pi) / 2.0 * (n : ℝ)
  let x : ℤ := truncToZero x_float % n
  let y : ℤ := max 0 (min (n - 1) (truncToZero y_float))
  (x, y)

/-- Function `wrap_clamp_tile` (lines 91–94): `x % n, max(0, min(n - 1, y))`. -/
def wrap_clamp_tile (x y : ℤ) (z : ℕ) : ℤ × ℤ :=
  let n : ℤ := 2 ^ z
  (x % n, max 0 (min (n - 1) y))

/-- Python `range(a, b)` over the integers: `[a, a+1, ..., b-1]`. -/
def intRange (a b : ℤ) : List ℤ :=
  (List.range (b - a).toNat).map (fun i : ℕ => a + (i : ℤ))

/-- The offset range of the grid-building loop in `main` (lines 230–238):
`range(-h, h)` when `grid_size` is even, `range(-h, h + 1)` when odd,
with `h = grid_size // 2`. -/
def offsetRange (grid_size : ℕ) : List ℤ :=
  let h : ℤ := (grid_size / 2 : ℕ)
  if grid_size % 2 = 0 then intRange (-h) h else intRange (-h) (h + 1)

/-- The grid-building loop of `main` (lines 240–244): for `dy` in the outer
loop and `dx` in the inner loop, record `(wx, wy, dx, dy)` with
`(wx, wy) = wrap_clamp_tile (cx + dx) (cy + dy) z`. -/
def buildGrid (cx cy : ℤ) (z : ℕ) (grid_size : ℕ) : List (ℤ × ℤ × ℤ × ℤ) :=
  (offsetRange grid_size).flatMap (fun dy =>
    (offsetRange grid_size).map (fun dx =>
      let w := wrap_clamp_tile (cx + dx) (cy + dy) z
      (w.1, w.2, dx, dy)))

/-- Outcome of one `session.get` + `raise_for_status` (lines 123–124):
either the fetched body, or an exception (network error, non-success
status, timeout). -/
inductive FetchEv where
  | ok (body : List ℕ)
  | netErr
deriving DecidableEq

/-- The body of the retry loop of `download_tile` (lines 121–134), over an
explicit list of attempt numbers (Python `range(1, retries + 1)`).

`ev a` is the outcome of the fetch on attempt `a`; `writeOk a` says whether
`dest.write_bytes(r.content)` succeeds on attempt `a`; `markerOk` says
whether the final `dest.write_bytes(b"")` succeeds.  `dest` is the current
content of the destination file (`none` = absent).  All exceptions inside
the loop are caught by the bare `except` clauses, so the `.error`
constructor of the result is never produced: an `.ok` result is the
function returning normally with the final file content. -/
def downloadGo (ev : ℕ → FetchEv) (writeOk : ℕ → Bool) (markerOk : Bool)
    (retries : ℕ) (dest : Option (List ℕ)) : List ℕ → Except Unit (Option (List ℕ))
  | [] => .ok dest
  | a :: rest =>
    match ev a with
    | .ok body =>
      if writeOk a then .ok (some body)
      else
        if retries ≤ a then
          downloadGo ev writeOk markerOk retries
            (if markerOk then some [] else dest) rest
        else downloadGo ev writeOk markerOk retries dest rest
    | .netErr =>
      if retries ≤ a then
        downloadGo ev writeOk markerOk retries
          (if markerOk then some [] else dest) rest
      else downloadGo ev writeOk markerOk retries dest rest

/-- Function `download_tile` (lines 117–134): run the retry loop over attempts
`1, …, retries`. -/
def download_tile (ev : ℕ → FetchEv) (writeOk : ℕ → Bool) (markerOk : Bool)
    (retries : ℕ) (dest : Option (List ℕ)) : Except Unit (Option (List ℕ)) :=
  downloadGo ev writeOk markerOk retries dest (List.range' 1 retries)

/-- The download decision of the loop in `main` (lines 263–269): skip when
`args.skip_existing and dest.exists()`; otherwise download exactly when
`not dest.exists() or dest.stat().st_size == 0`.  `dest` is the current
file content (`none` = absent, `some []` = zero-length marker). -/
def should_download (skip_existing : Bool) (dest : Option (List ℕ)) : Bool :=
  if skip_existing = true ∧ dest.isSome = true then false
  else if dest = none ∨ dest = some [] then true
  else false

/-- One iteration of the download loop of `main` (lines 263–269) acting on
one tile's file content. -/
def process_tile (skip_existing : Bool) (ev : ℕ → FetchEv) (writeOk : ℕ → Bool)
    (markerOk : Bool) (retries : ℕ) (dest : Option (List ℕ)) :
    Except Unit (Option (List ℕ)) :=
  if should_download skip_existing dest then
    download_tile ev writeOk markerOk retries dest
  else .ok dest

/-- An RGBA pixel value. -/
def RGBA : Type := ℕ × ℕ × ℕ × ℕ

instance : DecidableEq RGBA := by
  unfold RGBA
  infer_instance

/-- A decoded raster image: a size and a pixel function (the model of a
PIL `Image` already converted to RGBA). -/
structure Img where
  w : ℕ
  h : ℕ
  px : ℤ × ℤ → RGBA

/-- A canvas: pixel coordinates to RGBA. -/
def Canvas : Type := ℤ × ℤ → RGBA

/-- Model of `Image.paste` at offset `(px, py)` with a source of size `w × h`:
overwrite that rectangle, leave everything else. -/
def paste (canvas : Canvas) (tile : ℤ × ℤ → RGBA) (px py : ℤ) (w h : ℕ) : Canvas :=
  fun q =>
    if px ≤ q.1 ∧ q.1 < px + (w : ℤ) ∧ py ≤ q.2 ∧ q.2 < py + (h : ℤ) then
      tile (q.1 - px, q.2 - py)
    else canvas q

/-- Function `safe_open_png` (lines 139–148) on the file stored for coordinate `p`:
`none` when the file is absent or zero-length, and `decode` (the model of
`Image.open` + `load` + `convert("RGBA")`, returning `none` when any of
them raises) otherwise. -/
def safe_open_png (store : ℤ × ℤ → Option (List ℕ)) (decode : List ℕ → Option Img)
    (p : ℤ × ℤ) : Option Img :=
  match store p with
  | none => none
  | some b => if b.length = 0 then none else decode b

/-- The tile-size inference loop of `stitch_from_folder` (lines 157–166):
the size of the first cell whose file safely opens, else the
`DEFAULT_FALLBACK_TILE` of `(1000, 1000)`. -/
def infer_tile_size (store : ℤ × ℤ → Option (List ℕ)) (decode : List ℕ → Option Img) :
    List (ℤ × ℤ × ℤ × ℤ) → ℕ × ℕ
  | [] => (1000, 1000)
  | (x, y, _, _) :: rest =>
    match safe_open_png store decode (x, y) with
    | some im => (im.w, im.h)
    | none => infer_tile_size store decode rest

/-- The paste loop of `stitch_from_folder` (lines 171–186): for each cell
`(x, y, dx, dy)`, paste the opened tile — or a uniform block of the
background fill (transparent when `bg` is unset) of size `tw × th` — at
pixel origin `((dx + half) * tw, (dy + half) * th)`. -/
def stitch_loop (store : ℤ × ℤ → Option (List ℕ)) (decode : List ℕ → Option Img)
    (bg : Option RGBA) (tw th : ℕ) (half : ℤ) :
    List (ℤ × ℤ × ℤ × ℤ) → Canvas → Canvas
  | [], canvas => canvas
  | (x, y, dx, dy) :: rest, canvas =>
    let col : ℤ := dx + half
    let row : ℤ := dy + half
    let px : ℤ := col * (tw : ℤ)
    let py : ℤ := row * (th : ℤ)
    match safe_open_png store decode (x, y) with
    | some tile =>
      stitch_loop store decode bg tw th half rest (paste canvas tile.px px py tile.w tile.h)
    | none =>
      let fill : RGBA := bg.getD (0, 0, 0, 0)
      stitch_loop store decode bg tw th half rest (paste canvas (fun _ => fill) px py tw th)

/-- Function `stitch_from_folder` (lines 151–188): infer the tile size, start from a
fully transparent canvas of size `(tw * grid_size, th * grid_size)`, and
run the paste loop with `half = grid_size // 2`. -/
def stitch_from_folder (store : ℤ × ℤ → Option (List ℕ)) (decode : List ℕ → Option Img)
    (coords_meta : List (ℤ × ℤ × ℤ × ℤ)) (grid_size : ℕ) (bg : Option RGBA) :
    Canvas × ℕ × ℕ :=
  let sz := infer_tile_size store decode coords_meta
  let tw := sz.1
  let th := sz.2
  let canvas0 : Canvas := fun _ => (0, 0, 0, 0)
  let half : ℤ := ((grid_size / 2 : ℕ) : ℤ)
  (stitch_loop store decode bg tw th half coords_meta canvas0,
    tw * grid_size, th * grid_size)

/-- The milestone index thresholds of `main` (line 260): writing the exact
float products `total * 0.25`, `total * 0.5`, `total * 0.75`, `total * 1.0`
as `total * k / 4` for `k = 1, 2, 3, 4`, the trigger for milestone `k` is
`max 1 (total * k / 4)` (Python `int()` = floor on these non-negative
values). -/
def trigger (total k : ℕ) : ℕ :=
  max 1 (total * k / 4)

/-- The milestones `[0.25, 0.50, 0.75, 1.00]` of line 259, as quarters. -/
def milestoneKs : List ℕ := [1, 2, 3, 4]

/-- The inner milestone loop of `main` (lines 276–280) at one loop index:
walk the milestone list, printing `(idx, k)` and adding `k` to the printed
set whenever `idx` has reached `k`'s trigger and `k` is not yet printed.
Returns the new printed set and the events printed at this index. -/
def stepMilestones (total idx : ℕ) : List ℕ → List ℕ → List ℕ × List (ℕ × ℕ)
  | [], printed => (printed, [])
  | k :: ks, printed =>
    if trigger total k ≤ idx ∧ k ∉ printed then
      let r := stepMilestones total idx ks (k :: printed)
      (r.1, (idx, k) :: r.2)
    else stepMilestones total idx ks printed

/-- The download loop of `main` (lines 263–280) restricted to its progress
printing: process the given loop indices in order, threading the printed
set, and concatenate the printed events. -/
def progressLoop (total : ℕ) : List ℕ → List ℕ → List (ℕ × ℕ)
  | [], _ => []
  | idx :: rest, printed =>
    let r := stepMilestones total idx milestoneKs printed
    r.2 ++ progressLoop total rest r.1

/-- All progress events of a run over `total` tiles: loop indices are
`enumerate(coords_meta, 1)`, i.e. `1, …, total`, starting with nothing
printed. -/
def progressEvents (total : ℕ) : List (ℕ × ℕ) :=
  progressLoop total (List.range' 1 total) []

/-!  Basic facts about `intRange` and `offsetRange`. -/

theorem intRange_length (a b : ℤ) : (intRange a b).length = (b - a).toNat := by
  unfold intRange
  rw [List.length_map, List.length_range]

theorem mem_intRange {a b d : ℤ} : d ∈ intRange a b ↔ a ≤ d ∧ d < b := by
  unfold intRange
  rw [List.mem_map]
  constructor
  · rintro ⟨i, hi, rfl⟩
    rw [List.mem_range] at hi
    omega
  · rintro ⟨h1, h2⟩
    refine ⟨(d - a).toNat, ?_, ?_⟩
    · rw [List.mem_range]
      omega
    · omega

theorem offsetRange_length {n : ℕ} (hn : 1 ≤ n) : (offsetRange n).length = n := by
  unfold offsetRange
  by_cases hpar : n % 2 = 0
  · rw [if_pos hpar, intRange_length]
    omega
  · rw [if_neg hpar, intRange_length]
    omega

/-!  ## Projection (claims C1, C8) -/

/-- C1: for every zoom `z ≥ 0` and every real latitude/longitude pair
(including all `|lat| ≤ 85.05112878`, since latitude is clamped first),
`latlon_to_tile lat lon z` returns integers `x, y` with `0 ≤ x < 2^z` and
`0 ≤ y < 2^z`; the function is total, so it has no error conditions and
always returns an in-bounds index. -/
theorem latlon_to_tile_in_bounds (lat lon : ℝ) (z : ℕ) :
    0 ≤ (latlon_to_tile lat lon z).1 ∧ (latlon_to_tile lat lon z).1 < 2 ^ z ∧
    0 ≤ (latlon_to_tile lat lon z).2 ∧ (latlon_to_tile lat lon z).2 < 2 ^ z := by
  have hn : (0 : ℤ) < 2 ^ z := pow_pos (by norm_num) z
  unfold latlon_to_tile
  refine ⟨?_, ?_, ?_, ?_⟩
  · exact Int.emod_nonneg _ (ne_of_gt hn)
  · exact Int.emod_lt_of_pos _ hn
  · exact le_max_left _ _
  · exact max_lt hn (lt_of_le_of_lt (min_le_left _ _) (by linarith))

/-- C8: for every longitude and zoom, `latlon_to_tile` at latitude 90
agrees with `latlon_to_tile` at latitude 85.05112878, because latitude is
clamped to ±85.05112878 before projecting. -/
theorem latlon_to_tile_clamped (lon : ℝ) (z : ℕ) :
    latlon_to_tile 90 lon z = latlon_to_tile 85.05112878 lon z := by
  have h : clampLat 90 = clampLat 85.05112878 := by
    unfold clampLat
    rw [min_self, min_eq_right (by norm_num : (85.05112878 : ℝ) ≤ 90)]
  unfold latlon_to_tile
  rw [h]

/-!  ## Wrap / clamp (claim C3) -/

/-- C3: `wrap_clamp_tile x y z` returns `x` reduced mod `n = 2^z` taken
non-negatively (it equals the spec's `((x mod n) + n) mod n` and is
non-negative) paired with `y` clamped into `[0, n-1]`; in particular a
center at `x = 0` shifted by a negative `dx` (here: a negative `x`) wraps
to `n - |x|`, while a center at `y = 0` shifted by a negative `dy` (here:
a negative `y`) clamps to 0. -/
theorem wrap_clamp_tile_spec (x y : ℤ) (z : ℕ) :
    (wrap_clamp_tile x y z).1 = ((x % 2 ^ z) + 2 ^ z) % 2 ^ z ∧
    0 ≤ (wrap_clamp_tile x y z).1 ∧
    (wrap_clamp_tile x y z).2 = max 0 (min (2 ^ z - 1) y) ∧
    (-(2 ^ z) < x → x < 0 → (wrap_clamp_tile x y z).1 = 2 ^ z - |x|) ∧
    (y < 0 → (wrap_clamp_tile x y z).2 = 0) := by
  have hn : (0 : ℤ) < 2 ^ z := pow_pos (by norm_num) z
  have hfst : (wrap_clamp_tile x y z).1 = x % 2 ^ z := rfl
  have hsnd : (wrap_clamp_tile x y z).2 = max 0 (min (2 ^ z - 1) y) := rfl
  refine ⟨?_, ?_, hsnd, ?_, ?_⟩
  · rw [hfst]
    simp [Int.add_emod, Int.emod_emod_of_dvd]
  · exact Int.emod_nonneg _ (ne_of_gt hn)
  · intro h1 h2
    rw [hfst]
    calc x % 2 ^ z = (x + 2 ^ z) % 2 ^ z := by simp [Int.add_emod]
      _ = x + 2 ^ z := Int.emod_eq_of_lt (by omega) (by omega)
      _ = 2 ^ z - |x| := by rw [abs_of_neg h2]; ring
  · intro hneg
    rw [hsnd]
    have hmin : min (2 ^ z - 1) y ≤ 0 := le_trans (min_le_right _ _) (le_of_lt hneg)
    exact max_eq_left hmin

/-- Witness for C3 at `x = -1`, `y = -2`, `z = 2`. -/
theorem wrap_clamp_tile_spec_witness :
    (-(2 ^ 2) : ℤ) < -1 ∧ (-1 : ℤ) < 0 ∧ (-2 : ℤ) < 0 ∧
    (wrap_clamp_tile (-1) (-2) 2).1 = 2 ^ 2 - |(-1 : ℤ)| ∧
    (wrap_clamp_tile (-1) (-2) 2).2 = 0 :=
  ⟨by decide, by decide, by decide,
   (wrap_clamp_tile_spec (-1) (-2) 2).2.2.2.1 (by decide) (by decide),
   (wrap_clamp_tile_spec (-1) (-2) 2).2.2.2.2 (by decide)⟩

/-!  ## Grid builder (claim C2) -/

theorem intRange_pairwise (a b : ℤ) : (intRange a b).Pairwise (· < ·) := by
  unfold intRange
  refine (List.pairwise_lt_range _).map _ ?_
  intro i j hij
  omega

theorem offsetRange_pairwise (n : ℕ) : (offsetRange n).Pairwise (· < ·) := by
  unfold offsetRange
  by_cases hpar : n % 2 = 0
  · rw [if_pos hpar]
    exact intRange_pairwise _ _
  · rw [if_neg hpar]
    exact intRange_pairwise _ _

/-- C2: for every center tile and every `grid_size = n ≥ 1`, the grid
builder emits exactly `n ^ 2` cells; the `(dx, dy)` offsets of the emitted
cells are, in order, the row-major enumeration (`dy` in the ascending outer
loop, `dx` in the ascending inner loop) of `offsetRange n × offsetRange n`;
and `offsetRange n` is exactly the ascending interval `[-h, +h]` for odd
`n` and `[-h, +h-1]` for even `n`, where `h = n / 2`. -/
theorem buildGrid_spec (cx cy : ℤ) (z : ℕ) (n : ℕ) (hn : 1 ≤ n) :
    (buildGrid cx cy z n).length = n ^ 2 ∧
    (buildGrid cx cy z n).map (fun c => (c.2.2.1, c.2.2.2)) =
      (offsetRange n).flatMap (fun dy => (offsetRange n).map (fun dx => (dx, dy))) ∧
    (∀ d : ℤ, d ∈ offsetRange n ↔
      -((n / 2 : ℕ) : ℤ) ≤ d ∧
        d ≤ (if n % 2 = 0 then ((n / 2 : ℕ) : ℤ) - 1 else ((n / 2 : ℕ) : ℤ))) ∧
    (offsetRange n).Pairwise (· < ·) := by
  refine ⟨?_, ?_, ?_, offsetRange_pairwise n⟩
  · unfold buildGrid
    rw [List.length_flatMap]
    have hmap : (List.length ∘ fun dy => ((offsetRange n).map (fun dx =>
        let w := wrap_clamp_tile (cx + dx) (cy + dy) z
        (w.1, w.2, dx, dy)))) = fun _ : ℤ => n := by
      funext dy
      simp only [Function.comp_apply, List.length_map]
      exact offsetRange_length hn
    rw [hmap, List.map_const', List.sum_replicate, offsetRange_length hn,
      smul_eq_mul, sq]
  · unfold buildGrid
    rw [List.map_flatMap]
    congr 1
    funext dy
    rw [List.map_map]
    apply List.map_congr_left
    intro dx _
    rfl
  · intro d
    unfold offsetRange
    by_cases hpar : n % 2 = 0
    · rw [if_pos hpar, if_pos hpar, mem_intRange]
      omega
    · rw [if_neg hpar, if_neg hpar, mem_intRange]
      omega

/-- Witness for C2 at center `(0, 0)`, zoom 11, `grid_size = 3`. -/
theorem buildGrid_spec_witness :
    1 ≤ 3 ∧ (buildGrid 0 0 11 3).length = 3 ^ 2 :=
  ⟨by decide, (buildGrid_spec 0 0 11 3 (by decide)).1⟩

/-!  ## Tile fetcher (claims C4, C7) -/

theorem downloadGo_all_fail (ev : ℕ → FetchEv) (writeOk : ℕ → Bool) (retries : ℕ)
    (l : List ℕ) (hfail : ∀ a ∈ l, ev a = FetchEv.netErr) (dest : Option (List ℕ)) :
    downloadGo ev writeOk true retries dest l =
      .ok (if ∃ a ∈ l, retries ≤ a then some [] else dest) := by
  induction l generalizing dest with
  | nil => simp [downloadGo]
  | cons a rest ih =>
    have ha := hfail a (List.mem_cons_self a rest)
    have hfail' : ∀ b ∈ rest, ev b = FetchEv.netErr :=
      fun b hb => hfail b (List.mem_cons_of_mem a hb)
    have step : downloadGo ev writeOk true retries dest (a :: rest) =
        if retries ≤ a then downloadGo ev writeOk true retries (some []) rest
        else downloadGo ev writeOk true retries dest rest := by
      rw [downloadGo, ha]
      rfl
    rw [step]
    by_cases hra : retries ≤ a
    · rw [if_pos hra, ih hfail']
      have hex : ∃ b ∈ a :: rest, retries ≤ b := ⟨a, List.mem_cons_self a rest, hra⟩
      rw [if_pos hex]
      split <;> rfl
    · rw [if_neg hra, ih hfail']
      congr 1
      have : (∃ b ∈ a :: rest, retries ≤ b) ↔ (∃ b ∈ rest, retries ≤ b) := by
        constructor
        · rintro ⟨b, hb, hrb⟩
          rcases List.mem_cons.mp hb with rfl | hb'
          · exact absurd hrb hra
          · exact ⟨b, hb', hrb⟩
        · rintro ⟨b, hb, hrb⟩
          exact ⟨b, List.mem_cons_of_mem a hb, hrb⟩
      by_cases hex : ∃ b ∈ rest, retries ≤ b
      · rw [if_pos hex, if_pos (this.mpr hex)]
      · rw [if_neg hex, if_neg (fun hc => hex (this.mp hc))]

/-- C4: if every one of the `retries ≥ 1` fetch attempts fails with a
remote error, `download_tile` persists a zero-length marker (`some []`)
for the tile and returns normally (an `.ok` result — no exception is
raised for a remote failure), regardless of the destination's prior
content. -/
theorem download_tile_retry_exhaustion (ev : ℕ → FetchEv) (writeOk : ℕ → Bool)
    (retries : ℕ) (dest : Option (List ℕ)) (hr : 1 ≤ retries)
    (hfail : ∀ a, ev a = FetchEv.netErr) :
    download_tile ev writeOk true retries dest = .ok (some []) := by
  unfold download_tile
  rw [downloadGo_all_fail ev writeOk retries _ (fun a _ => hfail a) dest]
  have hex : ∃ a ∈ List.range' 1 retries, retries ≤ a := by
    refine ⟨retries, ?_, le_refl retries⟩
    rw [List.mem_range'_1]
    omega
  rw [if_pos hex]

/-- Witness for C4: two attempts, both failing remotely, starting from an
absent file. -/
theorem download_tile_retry_exhaustion_witness :
    1 ≤ 2 ∧
    download_tile (fun _ => FetchEv.netErr) (fun _ => true) true 2 none = .ok (some []) :=
  ⟨by decide,
   download_tile_retry_exhaustion (fun _ => FetchEv.netErr) (fun _ => true) 2 none
     (by decide) (fun _ => rfl)⟩

/-- C7 counterexample: a run in which every write of the tile resource
fails (`writeOk` always false, marker write also failing) still has
`download_tile` return normally (`.ok`) with the destination untouched —
the storage write failure is caught by the per-attempt `except` clause
(and the marker-write failure by the inner `except: pass`), so it does
not propagate to the top level and the run completes. -/
theorem download_tile_write_failure_swallowed :
    download_tile (fun _ => FetchEv.ok [7]) (fun _ => false) false 2 none = .ok none ∧
    ∀ e : Unit,
      download_tile (fun _ => FetchEv.ok [7]) (fun _ => false) false 2 none ≠ .error e := by
  constructor
  · rfl
  · intro e h
    rw [show download_tile (fun _ => FetchEv.ok [7]) (fun _ => false) false 2 none
        = .ok none from rfl] at h
    exact Except.noConfusion h

/-- C7 amended: an error while writing a tile resource is recovered
locally inside `download_tile` — it is caught like a fetch failure (a
non-final attempt retries; on the final attempt the zero-length marker
write is attempted, its own failure swallowed) — so `download_tile`
always returns normally, for every fetch/write-failure pattern; a tile
storage write failure never propagates out of the download loop. -/
theorem download_tile_never_raises (ev : ℕ → FetchEv) (writeOk : ℕ → Bool)
    (markerOk : Bool) (retries : ℕ) (dest : Option (List ℕ)) :
    ∃ s, download_tile ev writeOk markerOk retries dest = .ok s := by
  unfold download_tile
  generalize List.range' 1 retries = l
  induction l generalizing dest with
  | nil => exact ⟨dest, rfl⟩
  | cons a rest ih =>
    rw [downloadGo]
    cases ev a with
    | ok body =>
      by_cases hw : writeOk a
      · simp only [hw, if_true]
        exact ⟨some body, rfl⟩
      · simp only [hw, if_false]
        by_cases hra : retries ≤ a
        · rw [if_pos hra]
          exact ih _
        · rw [if_neg hra]
          exact ih _
    | netErr =>
      by_cases hra : retries ≤ a
      · rw [if_pos hra]
        exact ih _
      · rw [if_neg hra]
        exact ih _

/-!  ## Skip-existing and re-download behavior (claims C6, C10) -/

/-- C6 counterexample: with the skip-existing flag set, it is NOT the case
that the fetcher is bypassed exactly when a non-empty resource exists — an
existing zero-length marker (`some []`) also causes the bypass
(`should_download true (some []) = false`), although no non-empty resource
exists there. -/
theorem skip_existing_counterexample :
    ¬ (∀ dest : Option (List ℕ),
        should_download true dest = false ↔ ∃ b, dest = some b ∧ b ≠ []) := by
  intro h
  have h2 := (h (some [])).mp (by rfl)
  obtain ⟨b, hb, hne⟩ := h2
  injection hb with h3
  exact hne h3.symm

/-- C6 amended: with the skip-existing flag set, the tile fetcher is
bypassed exactly when a resource of any size — including a zero-length
marker — already exists at the target location: mere existence is the
cache-hit signal. -/
theorem skip_existing_bypass (dest : Option (List ℕ)) :
    should_download true dest = false ↔ dest.isSome = true := by
  unfold should_download
  cases dest with
  | none => simp
  | some b => simp

/-- C10: even with the skip-existing flag not set, the download loop
invokes the fetcher only for tiles whose file is absent or zero-length
(`should_download false dest = true` exactly when `dest` is `none` or
`some []`), so a tile whose stored file exists and is non-empty is left
byte-for-byte unchanged by the loop iteration. -/
theorem no_skip_no_redownload (ev : ℕ → FetchEv) (writeOk : ℕ → Bool)
    (markerOk : Bool) (retries : ℕ) :
    (∀ dest : Option (List ℕ),
      should_download false dest = true ↔ (dest = none ∨ dest = some [])) ∧
    (∀ b : List ℕ, b ≠ [] →
      process_tile false ev writeOk markerOk retries (some b) = .ok (some b)) := by
  have hiff : ∀ dest : Option (List ℕ),
      should_download false dest = true ↔ (dest = none ∨ dest = some []) := by
    intro dest
    unfold should_download
    cases dest with
    | none => simp
    | some b =>
      by_cases hb : b = []
      · subst hb
        simp
      · simp [hb]
  refine ⟨hiff, ?_⟩
  intro b hb
  unfold process_tile
  have hfalse : ¬ (should_download false (some b) = true) := by
    rw [hiff (some b)]
    rintro (h | h)
    · exact Option.noConfusion h
    · injection h with h2
      exact hb h2
  rw [if_neg (by simpa using hfalse)]

/-- Witness for C10 at a non-empty stored file `[1]`. -/
theorem no_skip_no_redownload_witness :
    ([1] : List ℕ) ≠ [] ∧
    process_tile false (fun _ => FetchEv.netErr) (fun _ => true) true 2 (some [1]) =
      .ok (some [1]) :=
  ⟨by decide,
   (no_skip_no_redownload (fun _ => FetchEv.netErr) (fun _ => true) true 2).2 [1]
     (by decide)⟩

/-!  ## Progress milestones (claim C9) -/

theorem stepMilestones_filter (total idx k : ℕ) :
    ∀ (ks printed : List ℕ),
    ((stepMilestones total idx ks printed).2.filter (fun e => e.2 == k)) =
      (if k ∈ ks ∧ trigger total k ≤ idx ∧ k ∉ printed then [(idx, k)] else []) := by
  intro ks
  induction ks with
  | nil =>
    intro printed
    simp [stepMilestones]
  | cons k0 ks ih =>
    intro printed
    by_cases hcond : trigger total k0 ≤ idx ∧ k0 ∉ printed
    · have hstep : (stepMilestones total idx (k0 :: ks) printed).2 =
          (idx, k0) :: (stepMilestones total idx ks (k0 :: printed)).2 := by
        rw [stepMilestones, if_pos hcond]
      rw [hstep, List.filter_cons]
      by_cases hkk : k0 = k
      · subst hkk
        simp only [beq_self_eq_true, if_pos]
        rw [ih (k0 :: printed)]
        have hno : ¬ (k0 ∈ ks ∧ trigger total k0 ≤ idx ∧ k0 ∉ k0 :: printed) := by
          rintro ⟨_, _, hnot⟩
          exact hnot (List.mem_cons_self _ _)
        rw [if_neg hno, if_pos ⟨List.mem_cons_self _ _, hcond.1, hcond.2⟩]
      · have hbeq : ((idx, k0).2 == k) = false := by
          simp [hkk]
        rw [hbeq, if_neg (by simp)]
        rw [ih (k0 :: printed)]
        have hiff : (k ∈ ks ∧ trigger total k ≤ idx ∧ k ∉ k0 :: printed) ↔
            (k ∈ k0 :: ks ∧ trigger total k ≤ idx ∧ k ∉ printed) := by
          have hne : k ≠ k0 := fun h => hkk h.symm
          simp [List.mem_cons, hne]
        by_cases hc2 : k ∈ ks ∧ trigger total k ≤ idx ∧ k ∉ k0 :: printed
        · rw [if_pos hc2, if_pos (hiff.mp hc2)]
        · rw [if_neg hc2, if_neg (fun hc => hc2 (hiff.mpr hc))]
    · have hstep : stepMilestones total idx (k0 :: ks) printed =
          stepMilestones total idx ks printed := by
        rw [stepMilestones, if_neg hcond]
      rw [hstep, ih printed]
      by_cases hkk : k0 = k
      · subst hkk
        push_neg at hcond
        have hno1 : ¬ (k0 ∈ ks ∧ trigger total k0 ≤ idx ∧ k0 ∉ printed) := by
          rintro ⟨_, hT, hnp⟩
          exact hnp (hcond hT)
        have hno2 : ¬ (k0 ∈ k0 :: ks ∧ trigger total k0 ≤ idx ∧ k0 ∉ printed) := by
          rintro ⟨_, hT, hnp⟩
          exact hnp (hcond hT)
        rw [if_neg hno1, if_neg hno2]
      · have hne : k ≠ k0 := fun h => hkk h.symm
        have hiff : (k ∈ ks ∧ trigger total k ≤ idx ∧ k ∉ printed) ↔
            (k ∈ k0 :: ks ∧ trigger total k ≤ idx ∧ k ∉ printed) := by
          simp [List.mem_cons, hne]
        by_cases hc2 : k ∈ ks ∧ trigger total k ≤ idx ∧ k ∉ printed
        · rw [if_pos hc2, if_pos (hiff.mp hc2)]
        · rw [if_neg hc2, if_neg (fun hc => hc2 (hiff.mpr hc))]

theorem stepMilestones_printed (total idx k : ℕ) :
    ∀ (ks printed : List ℕ),
    (k ∈ (stepMilestones total idx ks printed).1 ↔
      k ∈ printed ∨ (k ∈ ks ∧ trigger total k ≤ idx)) := by
  intro ks
  induction ks with
  | nil =>
    intro printed
    simp [stepMilestones]
  | cons k0 ks ih =>
    intro printed
    by_cases hcond : trigger total k0 ≤ idx ∧ k0 ∉ printed
    · have hstep : (stepMilestones total idx (k0 :: ks) printed).1 =
          (stepMilestones total idx ks (k0 :: printed)).1 := by
        rw [stepMilestones, if_pos hcond]
      rw [hstep, ih (k0 :: printed)]
      by_cases hkk : k = k0
      · subst hkk
        simp [List.mem_cons, hcond.1]
      · simp [List.mem_cons, hkk]
    · have hstep : stepMilestones total idx (k0 :: ks) printed =
          stepMilestones total idx ks printed := by
        rw [stepMilestones, if_neg hcond]
      rw [hstep, ih printed]
      push_neg at hcond
      by_cases hkk : k = k0
      · subst hkk
        constructor
        · rintro (hp | ⟨hm, hT⟩)
          · exact Or.inl hp
          · exact Or.inr ⟨List.mem_cons_of_mem _ hm, hT⟩
        · rintro (hp | ⟨_, hT⟩)
          · exact Or.inl hp
          · exact Or.inl (hcond hT)
      · simp [List.mem_cons, hkk]

theorem progressLoop_filter (total k : ℕ) (hk : k ∈ milestoneKs) :
    ∀ (cnt i : ℕ) (printed : List ℕ),
    (k ∈ printed ↔ trigger total k < i) →
    (progressLoop total (List.range' i cnt) printed).filter (fun e => e.2 == k) =
      (if i ≤ trigger total k ∧ trigger total k < i + cnt
       then [(trigger total k, k)] else []) := by
  intro cnt
  induction cnt with
  | zero =>
    intro i printed _
    rw [show List.range' i 0 = [] from rfl]
    rw [show progressLoop total [] printed = [] from rfl]
    rw [if_neg (by omega)]
    rfl
  | succ cnt ih =>
    intro i printed hinv
    rw [List.range'_succ, progressLoop, List.filter_append, stepMilestones_filter]
    have hinv2 : (k ∈ (stepMilestones total i milestoneKs printed).1 ↔
        trigger total k < i + 1) := by
      rw [stepMilestones_printed]
      constructor
      · rintro (hp | ⟨_, hT⟩)
        · have := hinv.mp hp
          omega
        · omega
      · intro h
        by_cases hti : trigger total k < i
        · exact Or.inl (hinv.mpr hti)
        · exact Or.inr ⟨hk, by omega⟩
    rw [ih (i + 1) _ hinv2]
    by_cases h1 : trigger total k < i
    · have hp : k ∈ printed := hinv.mpr h1
      rw [if_neg (fun hc => hc.2.2 hp), if_neg (by omega), if_neg (by omega)]
      rfl
    · by_cases h2 : trigger total k ≤ i
      · have hti : trigger total k = i := by omega
        have hp : k ∉ printed := fun hp => absurd (hinv.mp hp) (by omega)
        rw [if_pos ⟨hk, h2, hp⟩, if_neg (by omega), if_pos (by omega), hti]
        rfl
      · have hno : ¬ (k ∈ milestoneKs ∧ trigger total k ≤ i ∧ k ∉ printed) :=
          fun hc => h2 hc.2.1
        rw [if_neg hno]
        by_cases h3 : i + 1 ≤ trigger total k ∧ trigger total k < i + 1 + cnt
        · rw [if_pos h3, if_pos (by omega)]
          rfl
        · rw [if_neg h3, if_neg (by omega)]
          rfl

/-- C9: in a run with `total ≥ 1` tiles, each of the four progress
milestones `k/4` for `k = 1, 2, 3, 4` is printed exactly once — the
events whose milestone is `k` form the singleton list
`[(trigger total k, k)]` — and the printing index `trigger total k =
max 1 (total * k / 4)` is the first loop index at or after the milestone's
index threshold, since `1 ≤ trigger total k ≤ total` and loop indices run
consecutively over `1, …, total`. -/
theorem progress_milestones (total k : ℕ) (htotal : 1 ≤ total) (hk : k ∈ milestoneKs) :
    (progressEvents total).filter (fun e => e.2 == k) = [(trigger total k, k)] ∧
    trigger total k = max 1 (total * k / 4) ∧
    1 ≤ trigger total k ∧ trigger total k ≤ total := by
  have hk4 : k ≤ 4 := by
    have : k = 1 ∨ k = 2 ∨ k = 3 ∨ k = 4 := by
      simpa [milestoneKs] using hk
    omega
  have hle : total * k / 4 ≤ total := by
    calc total * k / 4 ≤ total * 4 / 4 :=
          Nat.div_le_div_right (Nat.mul_le_mul_left total hk4)
      _ = total := Nat.mul_div_cancel total (by norm_num)
  have h1t : 1 ≤ trigger total k := le_max_left _ _
  have htt : trigger total k ≤ total := max_le htotal hle
  refine ⟨?_, rfl, h1t, htt⟩
  unfold progressEvents
  rw [progressLoop_filter total k hk total 1 []
    (iff_of_false (by simp) (by omega))]
  rw [if_pos ⟨h1t, by omega⟩]

/-- Witness for C9 at `total = 5`, milestone `k = 3` (75%):
`trigger 5 3 = max 1 (15 / 4) = 3`. -/
theorem progress_milestones_witness :
    1 ≤ 5 ∧ 3 ∈ milestoneKs ∧
    (progressEvents 5).filter (fun e => e.2 == 3) = [(trigger 5 3, 3)] :=
  ⟨by decide, by decide, (progress_milestones 5 3 (by decide) (by decide)).1⟩

/-!  ## Stitcher (claim C5) -/

theorem safe_open_png_absent {store : ℤ × ℤ → Option (List ℕ)}
    {decode : List ℕ → Option Img} {p : ℤ × ℤ}
    (h : store p = none ∨ store p = some [] ∨
         ∃ b, store p = some b ∧ decode b = none) :
    safe_open_png store decode p = none := by
  unfold safe_open_png
  rcases h with h | h | ⟨b, hb, hd⟩
  · rw [h]
  · rw [h]
    rfl
  · rw [hb]
    show (if b.length = 0 then none else decode b) = none
    by_cases hl : b.length = 0
    · rw [if_pos hl]
    · rw [if_neg hl]
      exact hd

theorem safe_open_png_decoded {store : ℤ × ℤ → Option (List ℕ)}
    {decode : List ℕ → Option Img} {p : ℤ × ℤ} {im : Img}
    (h : safe_open_png store decode p = some im) : ∃ b, decode b = some im := by
  unfold safe_open_png at h
  cases hs : store p with
  | none =>
    rw [hs] at h
    exact absurd h (by simp)
  | some b =>
    rw [hs] at h
    have h2 : (if b.length = 0 then none else decode b) = some im := h
    by_cases hl : b.length = 0
    · rw [if_pos hl] at h2
      exact absurd h2 (by simp)
    · rw [if_neg hl] at h2
      exact ⟨b, h2⟩

theorem block_index_eq {t : ℕ} (ht : 0 < t) {c c' q : ℤ}
    (h1 : c * t ≤ q) (h2 : q < c * t + t) (h3 : c' * t ≤ q) (h4 : q < c' * t + t) :
    c = c' := by
  have ht' : (0 : ℤ) < (t : ℤ) := by exact_mod_cast ht
  have hA : c * (t : ℤ) < (c' + 1) * t := by
    have e : (c' + 1) * (t : ℤ) = c' * t + t := by ring
    linarith
  have hB : c' * (t : ℤ) < (c + 1) * t := by
    have e : (c + 1) * (t : ℤ) = c * t + t := by ring
    linarith
  have hA' : c < c' + 1 := lt_of_mul_lt_mul_right hA (le_of_lt ht')
  have hB' : c' < c + 1 := lt_of_mul_lt_mul_right hB (le_of_lt ht')
  omega

theorem mem_buildGrid_coords {cx cy : ℤ} {z n : ℕ} {c : ℤ × ℤ × ℤ × ℤ}
    (h : c ∈ buildGrid cx cy z n) :
    (c.1, c.2.1) = wrap_clamp_tile (cx + c.2.2.1) (cy + c.2.2.2) z := by
  unfold buildGrid at h
  rw [List.mem_flatMap] at h
  obtain ⟨dy, _, h2⟩ := h
  rw [List.mem_map] at h2
  obtain ⟨dx, _, rfl⟩ := h2
  rfl

theorem stitch_loop_preserve
    (store : ℤ × ℤ → Option (List ℕ)) (decode : List ℕ → Option Img)
    (bg : Option RGBA) (tw th : ℕ) (half : ℤ)
    (htw : 0 < tw) (hth : 0 < th)
    (hhom : ∀ b im, decode b = some im → im.w = tw ∧ im.h = th)
    (colT rowT : ℤ) (q : ℤ × ℤ)
    (hq1 : colT * tw ≤ q.1) (hq2 : q.1 < colT * tw + tw)
    (hq3 : rowT * th ≤ q.2) (hq4 : q.2 < rowT * th + th) :
    ∀ (L : List (ℤ × ℤ × ℤ × ℤ)) (canvas : Canvas),
    (∀ x' y' dx' dy', (x', y', dx', dy') ∈ L → dx' + half = colT →
       dy' + half = rowT → safe_open_png store decode (x', y') = none) →
    canvas q = bg.getD (0, 0, 0, 0) →
    stitch_loop store decode bg tw th half L canvas q = bg.getD (0, 0, 0, 0) := by
  intro L
  induction L with
  | nil =>
    intro canvas _ hc
    exact hc
  | cons c0 rest ih =>
    obtain ⟨x0, y0, dx0, dy0⟩ := c0
    intro canvas hSame hc
    have hSame' : ∀ x' y' dx' dy', (x', y', dx', dy') ∈ rest → dx' + half = colT →
        dy' + half = rowT → safe_open_png store decode (x', y') = none :=
      fun x' y' dx' dy' hm => hSame x' y' dx' dy' (List.mem_cons_of_mem _ hm)
    cases hso : safe_open_png store decode (x0, y0) with
    | none =>
      have hstep : stitch_loop store decode bg tw th half ((x0, y0, dx0, dy0) :: rest) canvas =
          stitch_loop store decode bg tw th half rest
            (paste canvas (fun _ => bg.getD (0, 0, 0, 0))
              ((dx0 + half) * tw) ((dy0 + half) * th) tw th) := by
        rw [stitch_loop, hso]
      rw [hstep]
      apply ih _ hSame'
      unfold paste
      by_cases hin : ((dx0 + half) * tw ≤ q.1 ∧ q.1 < (dx0 + half) * tw + tw ∧
          (dy0 + half) * th ≤ q.2 ∧ q.2 < (dy0 + half) * th + th)
      · rw [if_pos hin]
      · rw [if_neg hin]
        exact hc
    | some im =>
      obtain ⟨b, hdec⟩ := safe_open_png_decoded hso
      obtain ⟨hw, hh⟩ := hhom b im hdec
      have hstep : stitch_loop store decode bg tw th half ((x0, y0, dx0, dy0) :: rest) canvas =
          stitch_loop store decode bg tw th half rest
            (paste canvas im.px ((dx0 + half) * tw) ((dy0 + half) * th) im.w im.h) := by
        rw [stitch_loop, hso]
      rw [hstep]
      apply ih _ hSame'
      unfold paste
      have hout : ¬ ((dx0 + half) * tw ≤ q.1 ∧ q.1 < (dx0 + half) * tw + im.w ∧
          (dy0 + half) * th ≤ q.2 ∧ q.2 < (dy0 + half) * th + im.h) := by
        rw [hw, hh]
        rintro ⟨a1, a2, a3, a4⟩
        have hcol : dx0 + half = colT := block_index_eq htw a1 a2 hq1 hq2
        have hrow : dy0 + half = rowT := block_index_eq hth a3 a4 hq3 hq4
        have habs := hSame x0 y0 dx0 dy0 (List.mem_cons_self _ _) hcol hrow
        rw [habs] at hso
        exact Option.noConfusion hso
      rw [if_neg hout]
      exact hc

theorem stitch_loop_covers
    (store : ℤ × ℤ → Option (List ℕ)) (decode : List ℕ → Option Img)
    (bg : Option RGBA) (tw th : ℕ) (half : ℤ)
    (htw : 0 < tw) (hth : 0 < th)
    (hhom : ∀ b im, decode b = some im → im.w = tw ∧ im.h = th)
    (colT rowT : ℤ) (q : ℤ × ℤ)
    (hq1 : colT * tw ≤ q.1) (hq2 : q.1 < colT * tw + tw)
    (hq3 : rowT * th ≤ q.2) (hq4 : q.2 < rowT * th + th) :
    ∀ (L : List (ℤ × ℤ × ℤ × ℤ)) (canvas : Canvas),
    (∀ x' y' dx' dy', (x', y', dx', dy') ∈ L → dx' + half = colT →
       dy' + half = rowT → safe_open_png store decode (x', y') = none) →
    (∃ x0 y0 dx0 dy0, (x0, y0, dx0, dy0) ∈ L ∧ dx0 + half = colT ∧ dy0 + half = rowT) →
    stitch_loop store decode bg tw th half L canvas q = bg.getD (0, 0, 0, 0) := by
  intro L
  induction L with
  | nil =>
    rintro canvas _ ⟨x0, y0, dx0, dy0, hm, _, _⟩
    exact absurd hm (List.not_mem_nil _)
  | cons c0 rest ih =>
    obtain ⟨x0, y0, dx0, dy0⟩ := c0
    rintro canvas hSame hex
    have hSame' : ∀ x' y' dx' dy', (x', y', dx', dy') ∈ rest → dx' + half = colT →
        dy' + half = rowT → safe_open_png store decode (x', y') = none :=
      fun x' y' dx' dy' hm => hSame x' y' dx' dy' (List.mem_cons_of_mem _ hm)
    by_cases hhead : dx0 + half = colT ∧ dy0 + half = rowT
    · have hso : safe_open_png store decode (x0, y0) = none :=
        hSame x0 y0 dx0 dy0 (List.mem_cons_self _ _) hhead.1 hhead.2
      have hstep : stitch_loop store decode bg tw th half ((x0, y0, dx0, dy0) :: rest) canvas =
          stitch_loop store decode bg tw th half rest
            (paste canvas (fun _ => bg.getD (0, 0, 0, 0))
              ((dx0 + half) * tw) ((dy0 + half) * th) tw th) := by
        rw [stitch_loop, hso]
      rw [hstep]
      apply stitch_loop_preserve store decode bg tw th half htw hth hhom colT rowT q
        hq1 hq2 hq3 hq4 rest _ hSame'
      unfold paste
      rw [hhead.1, hhead.2]
      rw [if_pos ⟨hq1, hq2, hq3, hq4⟩]
    · obtain ⟨x1, y1, dx1, dy1, hm, hc1, hc2⟩ := hex
      rcases List.mem_cons.mp hm with heq | hm'
      · have e2 : dx1 = dx0 ∧ dy1 = dy0 := by
          have := congrArg (fun c => (c.2.2.1, c.2.2.2)) heq
          simpa using this
        exact absurd ⟨e2.1 ▸ hc1, e2.2 ▸ hc2⟩ hhead
      · cases hso : safe_open_png store decode (x0, y0) with
        | none =>
          have hstep : stitch_loop store decode bg tw th half
              ((x0, y0, dx0, dy0) :: rest) canvas =
              stitch_loop store decode bg tw th half rest
                (paste canvas (fun _ => bg.getD (0, 0, 0, 0))
                  ((dx0 + half) * tw) ((dy0 + half) * th) tw th) := by
            rw [stitch_loop, hso]
          rw [hstep]
          exact ih _ hSame' ⟨x1, y1, dx1, dy1, hm', hc1, hc2⟩
        | some im =>
          have hstep : stitch_loop store decode bg tw th half
              ((x0, y0, dx0, dy0) :: rest) canvas =
              stitch_loop store decode bg tw th half rest
                (paste canvas im.px ((dx0 + half) * tw) ((dy0 + half) * th)
                  im.w im.h) := by
            rw [stitch_loop, hso]
          rw [hstep]
          exact ih _ hSame' ⟨x1, y1, dx1, dy1, hm', hc1, hc2⟩

/-- C5: for every cell `(x, y, dx, dy)` of the grid whose stored tile
resource is missing (`none`), zero-length (`some []`), or undecodable
(`decode` fails), `safe_open_png` returns absence (`none`, never
propagating a decode error — it is a total function into `Option`), and
the stitched canvas is the configured background color (fully transparent
`(0,0,0,0)` when `bg` is unset) on the whole `tw × th` block whose pixel
origin is `((dx + h) * tw, (dy + h) * th)`, `h = grid_size // 2` — stated
for every pixel `(qx, qy)` of that block, under the stitcher's operating
assumption that every decodable stored tile has the inferred size
`(tw, th)` with `tw, th > 0`. -/
theorem stitch_missing_tile_fill
    (store : ℤ × ℤ → Option (List ℕ)) (decode : List ℕ → Option Img)
    (cx cy : ℤ) (z n : ℕ) (bg : Option RGBA)
    (x y dx dy qx qy : ℤ) (tw th : ℕ)
    (hsz : infer_tile_size store decode (buildGrid cx cy z n) = (tw, th))
    (htw : 0 < tw) (hth : 0 < th)
    (hhom : ∀ b im, decode b = some im → im.w = tw ∧ im.h = th)
    (hmem : (x, y, dx, dy) ∈ buildGrid cx cy z n)
    (habs : store (x, y) = none ∨ store (x, y) = some [] ∨
            ∃ b, store (x, y) = some b ∧ decode b = none)
    (hq1 : (dx + ((n / 2 : ℕ) : ℤ)) * tw ≤ qx)
    (hq2 : qx < (dx + ((n / 2 : ℕ) : ℤ)) * tw + tw)
    (hq3 : (dy + ((n / 2 : ℕ) : ℤ)) * th ≤ qy)
    (hq4 : qy < (dy + ((n / 2 : ℕ) : ℤ)) * th + th) :
    safe_open_png store decode (x, y) = none ∧
    (stitch_from_folder store decode (buildGrid cx cy z n) n bg).1 (qx, qy) =
      bg.getD (0, 0, 0, 0) := by
  have hso := safe_open_png_absent habs
  refine ⟨hso, ?_⟩
  have hunf : (stitch_from_folder store decode (buildGrid cx cy z n) n bg).1 =
      stitch_loop store decode bg tw th ((n / 2 : ℕ) : ℤ) (buildGrid cx cy z n)
        (fun _ => (0, 0, 0, 0)) := by
    unfold stitch_from_folder
    rw [hsz]
  rw [hunf]
  have hxy : ((x, y) : ℤ × ℤ) = wrap_clamp_tile (cx + dx) (cy + dy) z :=
    mem_buildGrid_coords hmem
  apply stitch_loop_covers store decode bg tw th ((n / 2 : ℕ) : ℤ) htw hth hhom
    (dx + ((n / 2 : ℕ) : ℤ)) (dy + ((n / 2 : ℕ) : ℤ)) (qx, qy) hq1 hq2 hq3 hq4
  · intro x' y' dx' dy' hm' hc1 hc2
    have hdx : dx' = dx := by omega
    have hdy : dy' = dy := by omega
    subst hdx
    subst hdy
    have hxy' : ((x', y') : ℤ × ℤ) = wrap_clamp_tile (cx + dx') (cy + dy') z :=
      mem_buildGrid_coords hm'
    have hpq : ((x', y') : ℤ × ℤ) = (x, y) := hxy'.trans hxy.symm
    injection hpq with e1 e2
    subst e1
    subst e2
    exact hso
  · exact ⟨x, y, dx, dy, hmem, rfl, rfl⟩

/-- Witness for C5: a 1×1 grid at zoom 0 with an empty store (every
resource missing), no background configured, fallback tile size
1000×1000, checked at canvas pixel `(0, 0)`. -/
theorem stitch_missing_tile_fill_witness :
    safe_open_png (fun _ => none) (fun _ => none) (0, 0) = none ∧
    (stitch_from_folder (fun _ => none) (fun _ => none) (buildGrid 0 0 0 1) 1
      none).1 (0, 0) = (none : Option RGBA).getD (0, 0, 0, 0) :=
  stitch_missing_tile_fill (fun _ => none) (fun _ => none) 0 0 0 1 none
    0 0 0 0 0 0 1000 1000
    (by decide) (by decide) (by decide)
    (fun b im him => Option.noConfusion him)
    (by decide) (Or.inl rfl)
    (by decide) (by decide) (by decide) (by decide)
